import Mathlib

/-!
Shallow embedding of the photo-editing front end's core logic:
the snapshot history (`addImageToHistory`, `handleUndo`, `handleRedo`,
`handleReset`), the mask-painting surfaces (`startDrawing`, `draw`,
`stopDrawing`, `undoMaskStroke`, `clearSurface`), mask rasterization
(the per-pixel alpha-threshold loops of `handleApplyMagicFill` and
`handleApplyFreestyle`), and the controller routing/validation logic
(`handleGenerate`, `freestyleRoute`).  Image blobs (JS `File` objects)
are opaque and modelled as natural numbers; JS numbers appearing in
coordinate arithmetic are modelled as exact rationals.
-/

/-- An image blob (a JS `File`); opaque to the logic, modelled as `Nat`. -/
abbrev Snapshot := Nat

/-- The editing tabs, from the `Tab` union type of the source. -/
inductive Tab where
  | retouch
  | magicfill
  | freestyle
  | combine
  | faceswap
  | adjust
  | filters
  | crop
deriving DecidableEq

/-- The combine-placement options (from `CombinePanel`); `blend` is the default. -/
inductive Placement where
  | blend
  | overlay
  | topLeft
  | topRight
  | bottomLeft
  | bottomRight
deriving DecidableEq

/-- One un-premultiplied 8-bit RGBA pixel, as read by `getImageData`. -/
structure RGBA where
  r : Nat
  g : Nat
  b : Nat
  a : Nat
deriving DecidableEq

/-- Fully transparent pixel (the state of a cleared canvas). -/
def transparent : RGBA := ⟨0, 0, 0, 0⟩

/-- Opaque white, `fillStyle = 'white'` / the `255,255,255,255` write. -/
def whiteOpaque : RGBA := ⟨255, 255, 255, 255⟩

/-- Opaque black, `fillStyle = 'black'` / the `0,0,0,255` write. -/
def blackOpaque : RGBA := ⟨0, 0, 0, 255⟩

/-- One mask-painting surface: the canvas pixel buffer plus the refs/flags the
source keeps beside it (`maskHistoryRef`, `isDrawingRef`, `isMaskDrawn`,
`canUndoMask`).  The stroke stack is most-recent-first (JS pushes and pops at
the array end; the head of this list is that end). -/
structure MaskSurface where
  pixels : List RGBA
  strokeStack : List (List RGBA)
  isDrawing : Bool
  isMaskDrawn : Bool
  canUndoMask : Bool
deriving DecidableEq

/-- A fresh mask surface. -/
def emptySurface : MaskSurface :=
  { pixels := [], strokeStack := [], isDrawing := false,
    isMaskDrawn := false, canUndoMask := false }

/-- The `App` component state relevant to the specified core. -/
structure AppState where
  history : List Snapshot
  historyIndex : Int
  prompt : String
  loadingMessage : Option String
  error : Option String
  editHotspot : Option (Int × Int)
  displayHotspot : Option (ℚ × ℚ)
  activeTab : Tab
  secondaryImage : Option Snapshot
  crop : Option Unit
  completedCrop : Option Unit
  combinePlacement : Placement
  magicFillPrompt : String
  magicFillMask : MaskSurface
  freestyleMask : MaskSurface
deriving DecidableEq

/-- The pre-upload state: empty history, cursor `-1`, everything cleared. -/
def emptyAppState : AppState :=
  { history := [], historyIndex := -1, prompt := "", loadingMessage := none,
    error := none, editHotspot := none, displayHotspot := none,
    activeTab := .retouch, secondaryImage := none, crop := none,
    completedCrop := none, combinePlacement := .blend, magicFillPrompt := "",
    magicFillMask := emptySurface, freestyleMask := emptySurface }

/-- JS `Array.prototype.slice(0, e)`: a negative end index counts from the
end of the array (clamped at `0`). -/
def jsSliceTo {α : Type} (l : List α) (e : Int) : List α :=
  if e < 0 then l.take (l.length - e.natAbs) else l.take e.toNat

/-- `history[historyIndex] ?? null`: the current snapshot, if any. -/
def currentImage (st : AppState) : Option Snapshot :=
  if 0 ≤ st.historyIndex then st.history.get? st.historyIndex.toNat else none

/-- `addImageToHistory`: truncate the history after the cursor
(`history.slice(0, historyIndex + 1)`), push the new snapshot, move the
cursor to the new last index, and reset the transient per-edit state
(`crop`, `completedCrop`, `secondaryImage`, `combinePlacement`). -/
def addImageToHistory (st : AppState) (newImageFile : Snapshot) : AppState :=
  let newHistory := jsSliceTo st.history (st.historyIndex + 1) ++ [newImageFile]
  { st with history := newHistory,
            historyIndex := (newHistory.length : Int) - 1,
            crop := none, completedCrop := none, secondaryImage := none,
            combinePlacement := .blend }

/-- `canUndo = historyIndex > 0`. -/
def canUndo (st : AppState) : Bool := 0 < st.historyIndex

/-- `canRedo = historyIndex < history.length - 1`. -/
def canRedo (st : AppState) : Bool := st.historyIndex < (st.history.length : Int) - 1

/-- `handleUndo`: when `canUndo`, decrement the cursor and clear the hotspot
(both spaces), the secondary image and the combine placement. -/
def handleUndo (st : AppState) : AppState :=
  if canUndo st then
    { st with historyIndex := st.historyIndex - 1, editHotspot := none,
              displayHotspot := none, secondaryImage := none,
              combinePlacement := .blend }
  else st

/-- `handleRedo`: when `canRedo`, increment the cursor and clear the same
transient selection state as `handleUndo`. -/
def handleRedo (st : AppState) : AppState :=
  if canRedo st then
    { st with historyIndex := st.historyIndex + 1, editHotspot := none,
              displayHotspot := none, secondaryImage := none,
              combinePlacement := .blend }
  else st

/-- `handleReset`: when the history is non-empty, move the cursor back to `0`
and clear the error and transient selection state. -/
def handleReset (st : AppState) : AppState :=
  if 0 < st.history.length then
    { st with historyIndex := 0, error := none, editHotspot := none,
              displayHotspot := none, secondaryImage := none,
              combinePlacement := .blend }
  else st

/-- The three snapshot-history operations quantified over by the invariant
claims. -/
inductive HistOp where
  | append (f : Snapshot)
  | undo
  | redo
deriving DecidableEq

/-- Apply one history operation to the app state. -/
def applyHistOp (st : AppState) : HistOp → AppState
  | .append f => addImageToHistory st f
  | .undo => handleUndo st
  | .redo => handleRedo st

/-- Run a sequence of history operations left to right. -/
def runOps (st : AppState) (ops : List HistOp) : AppState :=
  ops.foldl applyHistOp st

/-- The documented snapshot-history invariant: the cursor stays in
`[-1, length - 1]` and is `-1` exactly when the history is empty. -/
def HistInv (st : AppState) : Prop :=
  -1 ≤ st.historyIndex ∧ st.historyIndex ≤ (st.history.length : Int) - 1 ∧
    (st.historyIndex = -1 ↔ st.history = [])

/-- JS `Math.round`: round half away from zero toward positive infinity,
i.e. `⌊q + 1/2⌋`. -/
def jsRound (q : ℚ) : Int := ⌊q + 1 / 2⌋

/-- `handleImageClick`: in the retouch tab, record the display-space click
point and remap it to native space with the per-axis scale factors
`naturalWidth / clientWidth` and `naturalHeight / clientHeight`. -/
def handleImageClick (st : AppState)
    (offsetX offsetY naturalWidth naturalHeight clientWidth clientHeight : ℚ) :
    AppState :=
  if st.activeTab = Tab.retouch then
    let scaleX := naturalWidth / clientWidth
    let scaleY := naturalHeight / clientHeight
    { st with displayHotspot := some (offsetX, offsetY),
              editHotspot := some (jsRound (offsetX * scaleX), jsRound (offsetY * scaleY)) }
  else st

/-- `imageData.data.some(channel => channel !== 0)`: the scan `stopDrawing` and
`undoMaskStroke` run over the raw byte buffer (all four channels included). -/
def hasAnyNonzeroChannel (pixels : List RGBA) : Bool :=
  pixels.any fun p => p.r ≠ 0 || p.g ≠ 0 || p.b ≠ 0 || p.a ≠ 0

/-- `startDrawing` (surface-level part): push a full copy of the current
pixels onto the stroke stack, set `canUndoMask`, and mark drawing in
progress (`beginPath`/`moveTo` have no pixel effect). -/
def startDrawing (m : MaskSurface) : MaskSurface :=
  { m with strokeStack := m.pixels :: m.strokeStack, canUndoMask := true,
           isDrawing := true }

/-- `draw` (surface-level part): when a stroke is in progress, rasterize the
next segment into the pixel buffer.  The brush rasterization
(`lineTo`/`stroke` with the mode's compositing) is abstracted as an
arbitrary pixel-buffer update `f`, since the claims quantify over all
strokes; `draw` is a no-op when `isDrawingRef` is false. -/
def draw (f : List RGBA → List RGBA) (m : MaskSurface) : MaskSurface :=
  if m.isDrawing then { m with pixels := f m.pixels } else m

/-- `stopDrawing`: when a stroke is in progress, close it and recompute
`isMaskDrawn` by scanning the buffer for any non-zero byte. -/
def stopDrawing (m : MaskSurface) : MaskSurface :=
  if m.isDrawing then
    { m with isDrawing := false, isMaskDrawn := hasAnyNonzeroChannel m.pixels }
  else m

/-- One complete stroke: pointer-down, segment painting `f`, pointer-up. -/
def doStroke (f : List RGBA → List RGBA) (m : MaskSurface) : MaskSurface :=
  stopDrawing (draw f (startDrawing m))

/-- A sequence of strokes applied in order. -/
def applyStrokes (m : MaskSurface) (fs : List (List RGBA → List RGBA)) :
    MaskSurface :=
  fs.foldl (fun s f => doStroke f s) m

/-- `undoMaskStroke`: when the stroke stack is non-empty, pop the most recent
full-surface snapshot, restore it verbatim with `putImageData`, recompute
`canUndoMask` from the remaining stack and `isMaskDrawn` from the restored
bytes; a no-op when the stack is empty. -/
def undoMaskStroke (m : MaskSurface) : MaskSurface :=
  match m.strokeStack with
  | [] => m
  | lastState :: rest =>
      { m with pixels := lastState, strokeStack := rest,
               canUndoMask := 0 < rest.length,
               isMaskDrawn := hasAnyNonzeroChannel lastState }

/-- `clearMask` (surface-level part): `clearRect` the whole canvas (every
pixel becomes transparent, dimensions preserved), empty the stroke stack,
reset `isMaskDrawn` and `canUndoMask`. -/
def clearSurface (m : MaskSurface) : MaskSurface :=
  { pixels := List.replicate m.pixels.length transparent, strokeStack := [],
    isDrawing := m.isDrawing, isMaskDrawn := false, canUndoMask := false }

/-- The fill-mode threshold loop of `handleApplyMagicFill`: a pixel with
`alpha > 0` is overwritten to opaque white; other pixels are left untouched. -/
def fillThreshold (p : RGBA) : RGBA :=
  if 0 < p.a then whiteOpaque else p

/-- The protect-mode threshold loop of `handleApplyFreestyle`: a pixel with
`alpha > 0` is overwritten to opaque black; other pixels are left untouched. -/
def protectThreshold (p : RGBA) : RGBA :=
  if 0 < p.a then blackOpaque else p

/-- Source-over alpha compositing of an un-premultiplied 8-bit pixel onto a
destination, as `drawImage` performs when drawing the thresholded scratch
buffer onto the solid-filled native canvas. -/
def sourceOver (src dst : RGBA) : RGBA :=
  let outA := src.a + dst.a * (255 - src.a) / 255
  if outA = 0 then transparent
  else
    ⟨(src.r * src.a + dst.r * dst.a * (255 - src.a) / 255) / outA,
     (src.g * src.a + dst.g * dst.a * (255 - src.a) / 255) / outA,
     (src.b * src.a + dst.b * dst.a * (255 - src.a) / 255) / outA,
     outA⟩

/-- One output pixel of the fill-mode mask: the thresholded scratch pixel
composited over the black-filled native canvas. -/
def magicFillMaskPixel (p : RGBA) : RGBA :=
  sourceOver (fillThreshold p) blackOpaque

/-- One output pixel of the protect-mode (freestyle) mask: the thresholded
scratch pixel composited over the white-filled native canvas. -/
def freestyleMaskPixel (p : RGBA) : RGBA :=
  sourceOver (protectThreshold p) whiteOpaque

/-- Per-channel color complement (alpha preserved). -/
def complementPixel (p : RGBA) : RGBA :=
  ⟨255 - p.r, 255 - p.g, 255 - p.b, p.a⟩

/-- The fill-mode native mask of `handleApplyMagicFill`: the native canvas is
filled black, then the thresholded display-resolution scratch buffer is
drawn scaled onto it.  The resampling of `drawImage` is abstracted as a
sampling map `sample` from native pixel index to scratch pixel index
(out-of-range samples contribute nothing, leaving the black fill). -/
def magicFillNativeMask (pixels : List RGBA) (n : Nat) (sample : Nat → Nat) :
    List RGBA :=
  (List.range n).map fun i =>
    sourceOver ((pixels.map fillThreshold).getD (sample i) transparent) blackOpaque

/-- The protect-mode native mask of `handleApplyFreestyle`, likewise with a
white fill and the black-marking threshold. -/
def freestyleNativeMask (pixels : List RGBA) (n : Nat) (sample : Nat → Nat) :
    List RGBA :=
  (List.range n).map fun i =>
    sourceOver ((pixels.map protectThreshold).getD (sample i) transparent) whiteOpaque

/-- JS `String.prototype.trim()`: strip whitespace from both ends
(an executable model of the library routine). -/
def jsTrim (s : String) : String :=
  String.mk ((((s.data.dropWhile Char.isWhitespace).reverse.dropWhile
    Char.isWhitespace).reverse))

/-- The external generative-service calls the controller can issue. -/
inductive ExtCall where
  | pointEdit (image : Snapshot) (instruction : String) (hotspot : Int × Int)
  | magicFill (image : Snapshot) (mask : List RGBA) (instruction : String)
  | adjusted (image : Snapshot) (instruction : String) (secondary : Option Snapshot)
deriving DecidableEq

/-- `handleGenerate` (retouch mode) up to the external call: the three
validation checks run in order (no image, empty trimmed prompt, no
hotspot), each setting only the error message and issuing no call;
otherwise the point-edit call is issued. -/
def handleGenerate (st : AppState) : AppState × Option ExtCall :=
  match currentImage st with
  | none => ({ st with error := some "ยังไม่ได้โหลดรูปภาพเพื่อแก้ไข" }, none)
  | some img =>
    if jsTrim st.prompt = "" then
      ({ st with error := some "กรุณาใส่คำอธิบายการแก้ไขของคุณ" }, none)
    else
      match st.editHotspot with
      | none => ({ st with error := some "กรุณาคลิกบนภาพเพื่อเลือกพื้นที่ที่ต้องการแก้ไข" }, none)
      | some hs =>
          ({ st with loadingMessage := some "AI กำลังรีทัชภาพ...", error := none },
           some (ExtCall.pointEdit img st.prompt hs))

/-- The routing decision of `handleApplyFreestyle`: with no loaded image, a
validation error and no call; with a drawn protect mask, the mask-fill
service with the inverted (protect-rasterized) mask; otherwise the maskless
full-image adjustment service with the same instruction text.  The canvas
and image refs are present whenever an image is loaded. -/
def freestyleRoute (st : AppState) (freestylePrompt : String) : Option ExtCall :=
  match currentImage st with
  | none => none
  | some img =>
    if st.freestyleMask.isMaskDrawn then
      some (ExtCall.magicFill img (st.freestyleMask.pixels.map freestyleMaskPixel)
              freestylePrompt)
    else
      some (ExtCall.adjusted img freestylePrompt none)

/-- The success continuation of `handleApplyFreestyle`: append the result to
the history, then `clearMask()` the freestyle (protect) surface. -/
def handleApplyFreestyleSuccess (st : AppState) (result : Snapshot) : AppState :=
  { addImageToHistory st result with
      freestyleMask := clearSurface (addImageToHistory st result).freestyleMask }

/-- A sample state: history `[10, 20, 30]` with the cursor on `20`. -/
def histSampleState : AppState :=
  { emptyAppState with history := [10, 20, 30], historyIndex := 1 }

/-- A sample retouch-tab state: one snapshot loaded, hotspot selected, empty
instruction text. -/
def retouchSampleState : AppState :=
  { emptyAppState with history := [10], historyIndex := 0, prompt := "",
                       editHotspot := some (3, 4) }

/-- A sample freestyle state whose protect mask has paint. -/
def freestyleDrawnState : AppState :=
  { emptyAppState with history := [10], historyIndex := 0,
                       freestyleMask :=
                         { pixels := [⟨234, 179, 8, 153⟩, transparent],
                           strokeStack := [[transparent, transparent]],
                           isDrawing := false, isMaskDrawn := true,
                           canUndoMask := true } }

/-- A sample surface in mid-stroke with one painted pixel. -/
def drawnSurface : MaskSurface :=
  { pixels := [⟨74, 144, 226, 153⟩, transparent], strokeStack := [],
    isDrawing := true, isMaskDrawn := false, canUndoMask := false }

/-- A sample fully transparent two-pixel surface. -/
def clearSample : MaskSurface :=
  { pixels := [transparent, transparent], strokeStack := [], isDrawing := false,
    isMaskDrawn := false, canUndoMask := false }

/-- A sample stroke: paint every pixel with the freestyle tint. -/
def paintGold : List RGBA → List RGBA :=
  fun l => l.map fun _ => ⟨234, 179, 8, 153⟩

/-! ## Helper lemmas -/

theorem jsSliceTo_of_nonneg {α : Type} (l : List α) (e : Int) (h : 0 ≤ e) :
    jsSliceTo l e = l.take e.toNat := by
  unfold jsSliceTo
  rw [if_neg (by omega)]

theorem sourceOver_zero_black (p : RGBA) (hp : p.a = 0) :
    sourceOver p blackOpaque = blackOpaque := by
  simp [sourceOver, blackOpaque, hp]

theorem sourceOver_zero_white (p : RGBA) (hp : p.a = 0) :
    sourceOver p whiteOpaque = whiteOpaque := by
  simp [sourceOver, whiteOpaque, hp]

theorem sourceOver_white_black : sourceOver whiteOpaque blackOpaque = whiteOpaque := by
  decide

theorem sourceOver_black_white : sourceOver blackOpaque whiteOpaque = blackOpaque := by
  decide

theorem fillThreshold_alpha_zero (pixels : List RGBA)
    (hall : ∀ q ∈ pixels, q.a = 0) (j : Nat) :
    ((pixels.map fillThreshold).getD j transparent).a = 0 := by
  induction pixels generalizing j with
  | nil => simp [List.getD, transparent]
  | cons x xs ih =>
    cases j with
    | zero =>
      have hx : x.a = 0 := hall x (List.mem_cons_self x xs)
      simp [List.getD_cons_zero, fillThreshold, hx]
    | succ k =>
      simp only [List.map_cons, List.getD_cons_succ]
      exact ih (fun q hq => hall q (List.mem_cons_of_mem x hq)) k

theorem undoMaskStroke_cons (m : MaskSurface) (a : List RGBA) (rest : List (List RGBA))
    (h : m.strokeStack = a :: rest) :
    (undoMaskStroke m).pixels = a ∧ (undoMaskStroke m).strokeStack = rest := by
  simp [undoMaskStroke, h]

theorem doStroke_spec (f : List RGBA → List RGBA) (m : MaskSurface) :
    (doStroke f m).pixels = f m.pixels ∧
    (doStroke f m).strokeStack = m.pixels :: m.strokeStack := by
  simp [doStroke, stopDrawing, draw, startDrawing]

theorem undo_iterate (fs : List (List RGBA → List RGBA)) :
    ∀ m : MaskSurface,
      (undoMaskStroke^[fs.length] (applyStrokes m fs)).pixels = m.pixels ∧
      (undoMaskStroke^[fs.length] (applyStrokes m fs)).strokeStack = m.strokeStack := by
  induction fs with
  | nil =>
    intro m
    exact ⟨rfl, rfl⟩
  | cons f rest ih =>
    intro m
    have happ : applyStrokes m (f :: rest) = applyStrokes (doStroke f m) rest := rfl
    rw [happ, List.length_cons, Function.iterate_succ_apply']
    have hinner := ih (doStroke f m)
    have hstack : (undoMaskStroke^[rest.length] (applyStrokes (doStroke f m) rest)).strokeStack
        = m.pixels :: m.strokeStack := by
      rw [hinner.2, (doStroke_spec f m).2]
    exact undoMaskStroke_cons _ _ _ hstack

theorem histInv_empty : HistInv emptyAppState := by
  refine ⟨by decide, by decide, by decide⟩

theorem histInv_applyHistOp (st : AppState) (op : HistOp) (h : HistInv st) :
    HistInv (applyHistOp st op) := by
  obtain ⟨h1, h2, h3⟩ := h
  cases op with
  | append f =>
    show HistInv (addImageToHistory st f)
    have hh : (addImageToHistory st f).history =
        st.history.take (st.historyIndex + 1).toNat ++ [f] := by
      show jsSliceTo st.history (st.historyIndex + 1) ++ [f] = _
      rw [jsSliceTo_of_nonneg _ _ (by omega)]
    have hidx : (addImageToHistory st f).historyIndex =
        ((addImageToHistory st f).history.length : Int) - 1 := rfl
    have hlen : 0 < (addImageToHistory st f).history.length := by
      rw [hh]
      simp
    refine ⟨by omega, by omega, ?_⟩
    constructor
    · intro hm
      exact absurd hm (by omega)
    · intro hnil
      rw [hh] at hnil
      exact absurd hnil (by simp)
  | undo =>
    show HistInv (handleUndo st)
    unfold handleUndo
    by_cases hc : canUndo st = true
    · rw [if_pos hc]
      have hi : 0 < st.historyIndex := by simpa [canUndo] using hc
      refine ⟨show (-1 : Int) ≤ st.historyIndex - 1 by omega,
              show st.historyIndex - 1 ≤ (st.history.length : Int) - 1 by omega, ?_⟩
      show st.historyIndex - 1 = -1 ↔ st.history = []
      constructor
      · intro hidx
        exact absurd hidx (by omega)
      · intro hnil
        exact absurd (h3.mpr hnil) (by omega)
    · rw [if_neg hc]
      exact ⟨h1, h2, h3⟩
  | redo =>
    show HistInv (handleRedo st)
    unfold handleRedo
    by_cases hc : canRedo st = true
    · rw [if_pos hc]
      have hi : st.historyIndex < (st.history.length : Int) - 1 := by
        simpa [canRedo] using hc
      refine ⟨show (-1 : Int) ≤ st.historyIndex + 1 by omega,
              show st.historyIndex + 1 ≤ (st.history.length : Int) - 1 by omega, ?_⟩
      show st.historyIndex + 1 = -1 ↔ st.history = []
      have hne : st.history ≠ [] := by
        have hlen : 0 < st.history.length := by omega
        exact List.length_pos.mp hlen
      constructor
      · intro hidx
        exact absurd hidx (by omega)
      · intro hnil
        exact absurd hnil hne
    · rw [if_neg hc]
      exact ⟨h1, h2, h3⟩

theorem histInv_runOps (ops : List HistOp) :
    ∀ st : AppState, HistInv st → HistInv (runOps st ops) := by
  induction ops with
  | nil => intro st h; exact h
  | cons op rest ih =>
    intro st h
    exact ih (applyHistOp st op) (histInv_applyHistOp st op h)

theorem head_applyHistOp (st : AppState) (op : HistOp) (h : HistInv st)
    (hne : st.history ≠ []) :
    (applyHistOp st op).history.head? = st.history.head? ∧
    (applyHistOp st op).history ≠ [] := by
  cases op with
  | append f =>
    obtain ⟨h1, h2, h3⟩ := h
    have hi : 0 ≤ st.historyIndex := by
      by_contra hlt
      push_neg at hlt
      have hm1 : st.historyIndex = -1 := by omega
      exact hne (h3.mp hm1)
    constructor
    · show (jsSliceTo st.history (st.historyIndex + 1) ++ [f]).head? = st.history.head?
      rw [jsSliceTo_of_nonneg _ _ (by omega)]
      obtain ⟨k, hk⟩ : ∃ k, (st.historyIndex + 1).toNat = k + 1 :=
        ⟨(st.historyIndex + 1).toNat - 1, by omega⟩
      cases hl : st.history with
      | nil => exact absurd hl hne
      | cons a l =>
        rw [hk]
        simp [List.take_succ_cons]
    · show jsSliceTo st.history (st.historyIndex + 1) ++ [f] ≠ []
      simp
  | undo =>
    show (handleUndo st).history.head? = st.history.head? ∧ (handleUndo st).history ≠ []
    unfold handleUndo
    by_cases hc : canUndo st = true
    · rw [if_pos hc]
      exact ⟨rfl, hne⟩
    · rw [if_neg hc]
      exact ⟨rfl, hne⟩
  | redo =>
    show (handleRedo st).history.head? = st.history.head? ∧ (handleRedo st).history ≠ []
    unfold handleRedo
    by_cases hc : canRedo st = true
    · rw [if_pos hc]
      exact ⟨rfl, hne⟩
    · rw [if_neg hc]
      exact ⟨rfl, hne⟩

theorem head_runOps (ops : List HistOp) :
    ∀ st : AppState, HistInv st → st.history ≠ [] →
      (runOps st ops).history.head? = st.history.head? ∧ (runOps st ops).history ≠ [] := by
  induction ops with
  | nil => intro st _ hne; exact ⟨rfl, hne⟩
  | cons op rest ih =>
    intro st h hne
    have hstep := head_applyHistOp st op h hne
    have hinv := histInv_applyHistOp st op h
    have htail := ih (applyHistOp st op) hinv hstep.2
    exact ⟨htail.1.trans hstep.1, htail.2⟩

/-! ## Claim theorems -/

/-- C1: for every history state with cursor at least `-1` and every new
snapshot, `addImageToHistory` drops all entries strictly after the current
cursor (keeping indices `0..cursor`), appends the snapshot, and moves the
cursor to the new last index. -/
theorem append_truncates_and_moves_cursor (st : AppState) (f : Snapshot)
    (h : -1 ≤ st.historyIndex) :
    (addImageToHistory st f).history =
      st.history.take (st.historyIndex + 1).toNat ++ [f] ∧
    (addImageToHistory st f).historyIndex =
      ((addImageToHistory st f).history.length : Int) - 1 := by
  constructor
  · show jsSliceTo st.history (st.historyIndex + 1) ++ [f] = _
    rw [jsSliceTo_of_nonneg _ _ (by omega)]
  · rfl

/-- Witness for C1: from history `[10, 20, 30]` with the cursor at index `1`,
appending `40` yields `[10, 20, 40]` with the cursor at `2`. -/
theorem append_truncates_and_moves_cursor_witness :
    (addImageToHistory histSampleState 40).history = [10, 20, 40] ∧
    (addImageToHistory histSampleState 40).historyIndex = 2 := by
  have h := append_truncates_and_moves_cursor histSampleState 40 (by decide)
  refine ⟨?_, ?_⟩
  · rw [h.1]
    decide
  · rw [h.2, h.1]
    decide

/-- C2: for every sequence of `append`/`undo`/`redo` operations from the
empty history, the cursor stays in `[-1, length-1]` and is `-1` exactly when
the history is empty (`HistInv`), and the first snapshot never changes once
the history is non-empty. -/
theorem history_cursor_invariant (ops extra : List HistOp) :
    HistInv (runOps emptyAppState ops) ∧
    ((runOps emptyAppState ops).history ≠ [] →
      (runOps emptyAppState (ops ++ extra)).history.head? =
        (runOps emptyAppState ops).history.head?) := by
  have hinv : HistInv (runOps emptyAppState ops) :=
    histInv_runOps ops emptyAppState histInv_empty
  refine ⟨hinv, fun hne => ?_⟩
  have hsplit : runOps emptyAppState (ops ++ extra) =
      runOps (runOps emptyAppState ops) extra := by
    simp [runOps, List.foldl_append]
  rw [hsplit]
  exact (head_runOps extra (runOps emptyAppState ops) hinv hne).1

/-- Witness for C2: two appends followed by an undo and a further append keep
the invariant and the first snapshot. -/
theorem history_cursor_invariant_witness :
    HistInv (runOps emptyAppState [HistOp.append 5, HistOp.append 6]) ∧
    (runOps emptyAppState
        ([HistOp.append 5, HistOp.append 6] ++ [HistOp.undo, HistOp.append 7])).history.head? =
      (runOps emptyAppState [HistOp.append 5, HistOp.append 6]).history.head? := by
  have h := history_cursor_invariant [HistOp.append 5, HistOp.append 6]
    [HistOp.undo, HistOp.append 7]
  exact ⟨h.1, h.2 (by decide)⟩

/-- C7: in retouch mode, when the trimmed instruction text is empty or no
hotspot is selected, `handleGenerate` issues no external call and mutates
nothing besides the error display. -/
theorem retouch_validation_no_call (st : AppState)
    (h : jsTrim st.prompt = "" ∨ st.editHotspot = none) :
    (handleGenerate st).2 = none ∧
    ∃ msg, (handleGenerate st).1 = { st with error := some msg } := by
  have key : ∃ msg, handleGenerate st = ({ st with error := some msg }, none) := by
    rcases hc : currentImage st with _ | img
    · exact ⟨"ยังไม่ได้โหลดรูปภาพเพื่อแก้ไข", by simp only [handleGenerate, hc]⟩
    · rcases h with h | h
      · exact ⟨"กรุณาใส่คำอธิบายการแก้ไขของคุณ",
          by simp only [handleGenerate, hc, if_pos h]⟩
      · by_cases hp : jsTrim st.prompt = ""
        · exact ⟨"กรุณาใส่คำอธิบายการแก้ไขของคุณ",
            by simp only [handleGenerate, hc, if_pos hp]⟩
        · exact ⟨"กรุณาคลิกบนภาพเพื่อเลือกพื้นที่ที่ต้องการแก้ไข",
            by simp only [handleGenerate, hc, if_neg hp, h]⟩
  obtain ⟨msg, hm⟩ := key
  rw [hm]
  exact ⟨rfl, msg, rfl⟩

/-- Witness for C7: image loaded, hotspot selected, but empty instruction
text: no call is issued and only the error is set. -/
theorem retouch_validation_no_call_witness :
    (handleGenerate retouchSampleState).2 = none ∧
    ∃ msg, (handleGenerate retouchSampleState).1 =
      { retouchSampleState with error := some msg } :=
  retouch_validation_no_call retouchSampleState (Or.inl (by decide))

/-- C9: a retouch-tab click at display point `(x, y)` produces the native
hotspot `(round(x * naturalWidth / clientWidth), round(y * naturalHeight /
clientHeight))`, and the remapping is monotone: a larger display coordinate
never maps to a smaller native coordinate. -/
theorem image_click_remap (st : AppState) (x y z nw nh cw ch : ℚ)
    (htab : st.activeTab = Tab.retouch) (hnw : 0 ≤ nw) (hcw : 0 ≤ cw)
    (hxz : x ≤ z) :
    (handleImageClick st x y nw nh cw ch).editHotspot =
      some (jsRound (x * nw / cw), jsRound (y * nh / ch)) ∧
    jsRound (x * (nw / cw)) ≤ jsRound (z * (nw / cw)) := by
  constructor
  · simp only [handleImageClick, if_pos htab]
    rw [mul_div_assoc, mul_div_assoc]
  · unfold jsRound
    apply Int.floor_le_floor
    have hs : 0 ≤ nw / cw := div_nonneg hnw hcw
    have hm := mul_le_mul_of_nonneg_right hxz hs
    linarith

/-- Witness for C9: a click at `(10, 10)` on a 300×200 image displayed at
150×100 maps to the native point computed by the rounding formula, and
`x = 10 ≤ 20` maps monotonically. -/
theorem image_click_remap_witness :
    (handleImageClick retouchSampleState 10 10 300 200 150 100).editHotspot =
      some (jsRound (10 * 300 / 150), jsRound (10 * 200 / 100)) ∧
    jsRound ((10 : ℚ) * (300 / 150)) ≤ jsRound ((20 : ℚ) * (300 / 150)) :=
  image_click_remap retouchSampleState 10 10 20 300 200 150 100 rfl
    (by norm_num) (by norm_num) (by norm_num)

/-- C10: whenever undo (cursor `> 0`) or redo (cursor `< length - 1`) fires,
it moves only the cursor and clears the hotspot (both spaces), the secondary
image and the combine placement, leaving the snapshot list unchanged. -/
theorem undo_redo_clear_selection (st : AppState) :
    (0 < st.historyIndex →
      handleUndo st = { st with historyIndex := st.historyIndex - 1,
                                editHotspot := none, displayHotspot := none,
                                secondaryImage := none,
                                combinePlacement := Placement.blend } ∧
      (handleUndo st).history = st.history) ∧
    (st.historyIndex < (st.history.length : Int) - 1 →
      handleRedo st = { st with historyIndex := st.historyIndex + 1,
                                editHotspot := none, displayHotspot := none,
                                secondaryImage := none,
                                combinePlacement := Placement.blend } ∧
      (handleRedo st).history = st.history) := by
  constructor
  · intro h
    have hc : canUndo st = true := by
      simp only [canUndo, decide_eq_true_eq]
      exact h
    unfold handleUndo
    rw [if_pos hc]
    exact ⟨rfl, rfl⟩
  · intro h
    have hc : canRedo st = true := by
      simp only [canRedo, decide_eq_true_eq]
      exact h
    unfold handleRedo
    rw [if_pos hc]
    exact ⟨rfl, rfl⟩

/-- Witness for C10: on history `[10, 20, 30]` with the cursor at `1`, undo
moves the cursor to `0` and clears the hotspot; redo moves it to `2` and
leaves the snapshot list unchanged. -/
theorem undo_redo_clear_selection_witness :
    (handleUndo histSampleState).historyIndex = 0 ∧
    (handleUndo histSampleState).editHotspot = none ∧
    (handleRedo histSampleState).historyIndex = 2 ∧
    (handleRedo histSampleState).history = histSampleState.history := by
  have h := undo_redo_clear_selection histSampleState
  refine ⟨?_, ?_, ?_, (h.2 (by decide)).2⟩
  · rw [(h.1 (by decide)).1]
    decide
  · rw [(h.1 (by decide)).1]
  · rw [(h.2 (by decide)).1]
    decide

/-- C3: in fill-mode rasterization, every scratch pixel with `alpha > 0`
becomes opaque white in the output mask, every zero-alpha pixel ends up
opaque black, and an all-transparent surface of any size rasterizes to an
all-black native mask (for every output size and sampling map). -/
theorem magicfill_raster (p : RGBA) (pixels : List RGBA) (n : Nat)
    (sample : Nat → Nat) :
    (0 < p.a → magicFillMaskPixel p = whiteOpaque) ∧
    (p.a = 0 → magicFillMaskPixel p = blackOpaque) ∧
    ((∀ q ∈ pixels, q.a = 0) →
      magicFillNativeMask pixels n sample = List.replicate n blackOpaque) := by
  refine ⟨?_, ?_, ?_⟩
  · intro hp
    unfold magicFillMaskPixel fillThreshold
    rw [if_pos hp]
    exact sourceOver_white_black
  · intro hp
    unfold magicFillMaskPixel fillThreshold
    rw [if_neg (by omega)]
    exact sourceOver_zero_black p hp
  · intro hall
    apply List.eq_replicate_iff.mpr
    refine ⟨by simp [magicFillNativeMask], ?_⟩
    intro b hb
    simp only [magicFillNativeMask, List.mem_map, List.mem_range] at hb
    obtain ⟨i, hi, rfl⟩ := hb
    exact sourceOver_zero_black _ (fillThreshold_alpha_zero pixels hall (sample i))

/-- Witness for C3: a painted pixel becomes white, an unpainted one black,
and a two-pixel all-transparent surface rasterizes to a four-pixel all-black
native mask under a 2× nearest-neighbour sampling. -/
theorem magicfill_raster_witness :
    magicFillMaskPixel ⟨74, 144, 226, 153⟩ = whiteOpaque ∧
    magicFillMaskPixel ⟨9, 9, 9, 0⟩ = blackOpaque ∧
    magicFillNativeMask [⟨5, 6, 7, 0⟩, transparent] 4 (fun i => i / 2) =
      List.replicate 4 blackOpaque := by
  have h1 := magicfill_raster ⟨74, 144, 226, 153⟩ [⟨5, 6, 7, 0⟩, transparent] 4
    (fun i => i / 2)
  have h2 := magicfill_raster ⟨9, 9, 9, 0⟩ [⟨5, 6, 7, 0⟩, transparent] 4
    (fun i => i / 2)
  exact ⟨h1.1 (by decide), h2.2.1 rfl, h1.2.2 (by decide)⟩

/-- C4: for the same surface pixel, the fill-mode and protect-mode
rasterizations are exact color complements: a painted pixel (`alpha > 0`)
becomes white over the black fill-mode background and black over the white
protect-mode background, and conversely for unpainted pixels. -/
theorem mask_inversion (p : RGBA) :
    freestyleMaskPixel p = complementPixel (magicFillMaskPixel p) ∧
    (0 < p.a → magicFillMaskPixel p = whiteOpaque ∧
      freestyleMaskPixel p = blackOpaque) ∧
    (p.a = 0 → magicFillMaskPixel p = blackOpaque ∧
      freestyleMaskPixel p = whiteOpaque) := by
  by_cases hp : 0 < p.a
  · have hf : magicFillMaskPixel p = whiteOpaque := by
      unfold magicFillMaskPixel fillThreshold
      rw [if_pos hp]
      exact sourceOver_white_black
    have hpr : freestyleMaskPixel p = blackOpaque := by
      unfold freestyleMaskPixel protectThreshold
      rw [if_pos hp]
      exact sourceOver_black_white
    refine ⟨?_, fun _ => ⟨hf, hpr⟩, fun h0 => absurd h0 (by omega)⟩
    rw [hf, hpr]
    decide
  · have h0 : p.a = 0 := by omega
    have hf : magicFillMaskPixel p = blackOpaque := by
      unfold magicFillMaskPixel fillThreshold
      rw [if_neg hp]
      exact sourceOver_zero_black p h0
    have hpr : freestyleMaskPixel p = whiteOpaque := by
      unfold freestyleMaskPixel protectThreshold
      rw [if_neg hp]
      exact sourceOver_zero_white p h0
    refine ⟨?_, fun hlt => absurd hlt hp, fun _ => ⟨hf, hpr⟩⟩
    rw [hf, hpr]
    decide

/-- Witness for C4: the complement law at a painted pixel (freestyle tint at
60% alpha) and at an unpainted pixel. -/
theorem mask_inversion_witness :
    (freestyleMaskPixel ⟨234, 179, 8, 153⟩ =
        complementPixel (magicFillMaskPixel ⟨234, 179, 8, 153⟩) ∧
      magicFillMaskPixel ⟨234, 179, 8, 153⟩ = whiteOpaque ∧
      freestyleMaskPixel ⟨234, 179, 8, 153⟩ = blackOpaque) ∧
    (magicFillMaskPixel ⟨7, 8, 9, 0⟩ = blackOpaque ∧
      freestyleMaskPixel ⟨7, 8, 9, 0⟩ = whiteOpaque) := by
  refine ⟨⟨(mask_inversion ⟨234, 179, 8, 153⟩).1,
    (mask_inversion ⟨234, 179, 8, 153⟩).2.1 (by decide)⟩,
    (mask_inversion ⟨7, 8, 9, 0⟩).2.2 rfl⟩

/-- C5: in freestyle mode with a loaded image, a drawn protect mask routes
the edit through the mask-fill service with the inverted protect mask; with
no paint it routes through the maskless full-image service with the same
instruction text and the mask-fill service is never called; the success
continuation clears the protect mask. -/
theorem freestyle_routing (st : AppState) (p : String) (img : Snapshot)
    (h : currentImage st = some img) (result : Snapshot) :
    (st.freestyleMask.isMaskDrawn = true →
      freestyleRoute st p = some (ExtCall.magicFill img
        (st.freestyleMask.pixels.map freestyleMaskPixel) p)) ∧
    (st.freestyleMask.isMaskDrawn = false →
      freestyleRoute st p = some (ExtCall.adjusted img p none) ∧
      ∀ i m q, freestyleRoute st p ≠ some (ExtCall.magicFill i m q)) ∧
    (handleApplyFreestyleSuccess st result).freestyleMask.isMaskDrawn = false ∧
    ∀ q ∈ (handleApplyFreestyleSuccess st result).freestyleMask.pixels,
      q = transparent := by
  refine ⟨?_, ?_, ?_, ?_⟩
  · intro hm
    simp [freestyleRoute, h, hm]
  · intro hm
    constructor
    · simp [freestyleRoute, h, hm]
    · intro i m q
      simp [freestyleRoute, h, hm]
  · rfl
  · intro q hq
    exact List.eq_of_mem_replicate hq

/-- Witness for C5: with paint, the mask-fill route with the inverted mask;
without paint, the maskless route; success clears the protect mask. -/
theorem freestyle_routing_witness :
    freestyleRoute freestyleDrawnState "a" =
      some (ExtCall.magicFill 10
        (freestyleDrawnState.freestyleMask.pixels.map freestyleMaskPixel) "a") ∧
    freestyleRoute retouchSampleState "b" = some (ExtCall.adjusted 10 "b" none) ∧
    (handleApplyFreestyleSuccess freestyleDrawnState 77).freestyleMask.isMaskDrawn
      = false := by
  have h1 := freestyle_routing freestyleDrawnState "a" 10 (by decide) 77
  have h2 := freestyle_routing retouchSampleState "b" 10 (by decide) 77
  exact ⟨h1.1 rfl, (h2.2.1 rfl).1, h1.2.2.1⟩

/-- C6: `undoMaskStroke` pops the snapshot pushed at the stroke's
pointer-down and restores it verbatim; after any `n` strokes the surface
pixels return to their pre-stroke values after `n` undos (in particular a
fully transparent surface returns to fully transparent), and undo on an
empty stroke stack is a no-op. -/
theorem undo_stroke_restores (m : MaskSurface) (f : List RGBA → List RGBA)
    (fs : List (List RGBA → List RGBA)) :
    (undoMaskStroke (doStroke f m)).pixels = m.pixels ∧
    (undoMaskStroke^[fs.length] (applyStrokes m fs)).pixels = m.pixels ∧
    ((∀ p ∈ m.pixels, p = transparent) →
      ∀ p ∈ (undoMaskStroke^[fs.length] (applyStrokes m fs)).pixels,
        p = transparent) ∧
    (m.strokeStack = [] → undoMaskStroke m = m) := by
  refine ⟨?_, (undo_iterate fs m).1, ?_, ?_⟩
  · exact (undoMaskStroke_cons _ _ _ (doStroke_spec f m).2).1
  · intro hclear p hp
    rw [(undo_iterate fs m).1] at hp
    exact hclear p hp
  · intro hempty
    simp [undoMaskStroke, hempty]

/-- Witness for C6: one gold stroke over a clear two-pixel surface is
undone back to full transparency, and undo on the empty stack is a no-op. -/
theorem undo_stroke_restores_witness :
    (undoMaskStroke (doStroke paintGold clearSample)).pixels = clearSample.pixels ∧
    (undoMaskStroke^[[paintGold].length] (applyStrokes clearSample [paintGold])).pixels
      = clearSample.pixels ∧
    (∀ p ∈ (undoMaskStroke^[[paintGold].length]
        (applyStrokes clearSample [paintGold])).pixels, p = transparent) ∧
    undoMaskStroke clearSample = clearSample := by
  have h := undo_stroke_restores clearSample paintGold [paintGold]
  exact ⟨h.1, h.2.1, h.2.2.1 (by decide), h.2.2.2 rfl⟩

/-- C8: when a stroke ends, `stopDrawing` sets the mask-drawn flag to true
exactly when some pixel of the surface has non-zero alpha (using that
`getImageData` yields zero color channels wherever alpha is zero, since the
canvas stores premultiplied pixels). -/
theorem stop_drawing_sets_haspaint (m : MaskSurface)
    (hdrawing : m.isDrawing = true)
    (hcanvas : ∀ p ∈ m.pixels, p.a = 0 → p.r = 0 ∧ p.g = 0 ∧ p.b = 0) :
    ((stopDrawing m).isMaskDrawn = true ↔ ∃ p ∈ m.pixels, 0 < p.a) := by
  simp only [stopDrawing, hdrawing, if_true]
  show hasAnyNonzeroChannel m.pixels = true ↔ _
  unfold hasAnyNonzeroChannel
  rw [List.any_eq_true]
  constructor
  · rintro ⟨p, hp, hne⟩
    refine ⟨p, hp, ?_⟩
    by_contra hzero
    have ha : p.a = 0 := by omega
    obtain ⟨hr, hg, hb⟩ := hcanvas p hp ha
    simp [hr, hg, hb, ha] at hne
  · rintro ⟨p, hp, hpa⟩
    refine ⟨p, hp, ?_⟩
    simp only [Bool.or_eq_true, ne_eq, decide_eq_true_eq]
    omega

/-- Witness for C8: ending a stroke on a surface with one painted pixel sets
the flag, matching the existence of a positive-alpha pixel. -/
theorem stop_drawing_sets_haspaint_witness :
    ((stopDrawing drawnSurface).isMaskDrawn = true ↔
      ∃ p ∈ drawnSurface.pixels, 0 < p.a) :=
  stop_drawing_sets_haspaint drawnSurface rfl (by decide)
